import Mathlib

/-!
Shallow embedding of the dof-map indexing layer of dolfin
(src/dolfin/fem/UFCDofMap.cpp) and the block-matrix query surface
(src/dolfin/la/BlockMatrix.cpp).

The external collaborators (the UFC element dof descriptor `ufc::dof_map`,
the mesh, and the generic block entries of a block matrix) are modelled at
their interface, as the spec prescribes: a descriptor is a tree of records
holding the answers its query methods give after initialization against the
mesh under consideration, and the side-effecting per-cell initialization
calls are modelled by the trace of calls they produce.
-/

namespace Dolfin

/-- Model of a dolfin `Mesh` at the interface consumed by `UFCDofMap`:
topological dimension, per-dimension entity counts (`num_entities`), the
`ordered()` flag, and the number of cells; `CellIterator` visits cells
`0, 1, ..., num_cells - 1` in ascending order. -/
structure Mesh where
  topology_dim : Nat
  num_entities : Nat → Nat
  ordered : Bool
  num_cells : Nat

/-- Model of the external UFC element dof descriptor (`ufc::dof_map`),
a capability object queried by `UFCDofMap`: which entity dimensions it
needs, its global and maximum local dimension, per-cell local dimension and
per-cell dof tabulation (as the answers it gives once initialized against
the mesh under consideration), the boolean returned by `init_mesh` (whether
a per-cell initialization pass is required), and the list of sub-descriptors
produced by `create_sub_dof_map`. -/
inductive DofDesc : Type where
  | mk
    (needs_mesh_entities : Nat → Bool)
    (global_dimension : Nat)
    (max_local_dimension : Nat)
    (local_dimension : Nat → Nat)
    (tabulate_dofs : Nat → List Nat)
    (init_mesh : Bool)
    (subs : List DofDesc)

/-- Accessor: `ufc::dof_map::needs_mesh_entities(d)`. -/
def DofDesc.needs_mesh_entities : DofDesc → Nat → Bool
  | .mk f _ _ _ _ _ _ => f

/-- Accessor: `ufc::dof_map::global_dimension()`. -/
def DofDesc.global_dimension : DofDesc → Nat
  | .mk _ g _ _ _ _ _ => g

/-- Accessor: `ufc::dof_map::max_local_dimension()`. -/
def DofDesc.max_local_dimension : DofDesc → Nat
  | .mk _ _ m _ _ _ _ => m

/-- Accessor: `ufc::dof_map::local_dimension(cell)`. -/
def DofDesc.local_dimension : DofDesc → Nat → Nat
  | .mk _ _ _ l _ _ _ => l

/-- Accessor: `ufc::dof_map::tabulate_dofs(dofs, mesh, cell)`, returning the
list of indices the descriptor writes for the given cell. -/
def DofDesc.tabulate_dofs : DofDesc → Nat → List Nat
  | .mk _ _ _ _ t _ _ => t

/-- Accessor: the boolean returned by `ufc::dof_map::init_mesh`. -/
def DofDesc.init_mesh : DofDesc → Bool
  | .mk _ _ _ _ _ b _ => b

/-- Accessor: the sub-descriptor list. -/
def DofDesc.subs : DofDesc → List DofDesc
  | .mk _ _ _ _ _ _ s => s

/-- Query: `ufc::dof_map::num_sub_dof_maps()`. -/
def DofDesc.num_sub_dof_maps (d : DofDesc) : Nat :=
  d.subs.length

/-- Query: `ufc::dof_map::create_sub_dof_map(i)`; only ever called with
`i < num_sub_dof_maps`, the fallback is never reached. -/
def DofDesc.create_sub_dof_map (d : DofDesc) (i : Nat) : DofDesc :=
  d.subs.getD i d

/-- The UFC descriptor interface contract assumed by `UFCDofMap` (the
descriptor is external and specified only at its interface): for every cell
of the mesh, the tabulation it writes has exactly `local_dimension(cell)`
entries, and the local dimension never exceeds `max_local_dimension()`. -/
def DofDesc.TabulatesWF (d : DofDesc) (mesh : Mesh) : Prop :=
  ∀ cell < mesh.num_cells,
    (d.tabulate_dofs cell).length = d.local_dimension cell ∧
    d.local_dimension cell ≤ d.max_local_dimension

/-- The error taxonomy of the spec, carrying the data named in the
corresponding `error(...)` message of the source. -/
inductive DofMapError : Type where
  | NoSubspacesError
  | NoSubSystemSpecifiedError
  | IndexOutOfRangeError (index : Nat) (available : Nat)
  | MissingEntitiesError (dim : Nat)
  | OrderingError
  | UnsupportedOperationError
deriving DecidableEq, Repr

/-- Trace of the side-effecting per-cell initialization pass performed on a
descriptor by `init_ufc_dofmap`: the list of cell indices passed to
`init_cell`, in call order, and whether `init_cell_finalize` was called. -/
structure InitTrace : Type where
  init_cell_calls : List Nat
  finalized : Bool
deriving DecidableEq, Repr

/-- Embedding of the static `UFCDofMap::init_ufc_dofmap`: error with
`MissingEntitiesError d` at the first dimension `d ≤ topology_dim` that the
descriptor needs but for which the mesh has zero entities; otherwise call
`init_mesh` and, if it returns true, run `init_cell` on every cell in
ascending order followed by `init_cell_finalize` (returned as a trace). -/
def init_ufc_dofmap (d : DofDesc) (mesh : Mesh) : Except DofMapError InitTrace :=
  match (List.range (mesh.topology_dim + 1)).find?
      (fun k => d.needs_mesh_entities k && mesh.num_entities k == 0) with
  | some k => .error (.MissingEntitiesError k)
  | none =>
    if d.init_mesh then
      .ok ⟨List.range mesh.num_cells, true⟩
    else
      .ok ⟨[], false⟩

/-- Embedding of the static `UFCDofMap::init_ufc_mesh`: error with
`OrderingError` when the mesh is not ordered, otherwise build the UFC mesh
summary (whose content is already folded into the descriptor model). -/
def init_ufc_mesh (mesh : Mesh) : Except DofMapError Unit :=
  if mesh.ordered then .ok () else .error .OrderingError

/-- The `UFCDofMap` state: the shared descriptor reference and the integer
offset `_ufc_offset` (0 unless the map was produced by sub-extraction). -/
structure UFCDofMap : Type where
  ufc_dofmap : DofDesc
  ufc_offset : Nat

/-- Embedding of `UFCDofMap::init`: initialize the UFC mesh summary (which
checks ordering), then initialize the UFC descriptor. -/
def UFCDofMap.init (dm : UFCDofMap) (mesh : Mesh) : Except DofMapError InitTrace :=
  match init_ufc_mesh mesh with
  | .error e => .error e
  | .ok _ => init_ufc_dofmap dm.ufc_dofmap mesh

/-- Embedding of the `UFCDofMap(ufc_dofmap, const Mesh&)` constructor: a map
with offset 0 whose construction runs `init` (and fails when `init` fails). -/
def mkUFCDofMap (d : DofDesc) (mesh : Mesh) : Except DofMapError UFCDofMap :=
  match UFCDofMap.init ⟨d, 0⟩ mesh with
  | .error e => .error e
  | .ok _ => .ok ⟨d, 0⟩

/-- `UFCDofMap::global_dimension`. -/
def UFCDofMap.global_dimension (dm : UFCDofMap) : Nat :=
  dm.ufc_dofmap.global_dimension

/-- `UFCDofMap::local_dimension(cell)`. -/
def UFCDofMap.local_dimension (dm : UFCDofMap) (cell : Nat) : Nat :=
  dm.ufc_dofmap.local_dimension cell

/-- `UFCDofMap::max_local_dimension`. -/
def UFCDofMap.max_local_dimension (dm : UFCDofMap) : Nat :=
  dm.ufc_dofmap.max_local_dimension

/-- Embedding of `UFCDofMap::tabulate_dofs`: delegate to the descriptor's
tabulation, then, if the offset is positive, add it to the first
`local_dimension(cell)` entries of the buffer (under the descriptor
contract those are exactly the tabulated entries). -/
def UFCDofMap.tabulate_dofs (dm : UFCDofMap) (cell : Nat) : List Nat :=
  if 0 < dm.ufc_offset then
    ((dm.ufc_dofmap.tabulate_dofs cell).take (dm.local_dimension cell)).map
        (· + dm.ufc_offset) ++
      (dm.ufc_dofmap.tabulate_dofs cell).drop (dm.local_dimension cell)
  else
    dm.ufc_dofmap.tabulate_dofs cell

/-- Embedding of the sibling-offset accumulation loop of the static
`UFCDofMap::extract_sub_dofmap` helper (lines 176-187): for each preceding
sibling index `i < c`, create the sub-descriptor, initialize it against the
mesh (propagating initialization errors), and add its `global_dimension` to
the running offset. -/
def accumSiblingOffset (d : DofDesc) (off : Nat) (c : Nat) (mesh : Mesh) :
    Except DofMapError Nat :=
  (List.range c).foldlM
    (fun acc i =>
      match init_ufc_dofmap (d.create_sub_dof_map i) mesh with
      | .error e => .error e
      | .ok _ => .ok (acc + (d.create_sub_dof_map i).global_dimension))
    off

/-- Embedding of the static recursive helper
`UFCDofMap::extract_sub_dofmap(ufc_dofmap, offset, component, ...)`:
check for sub-systems, a nonempty component, and the index bound; accumulate
the preceding siblings' global dimensions into the offset; create the
selected sub-descriptor; return it when the path is exhausted, otherwise
recurse on the path's tail. -/
def extract_sub_dofmap_rec :
    DofDesc → Nat → List Nat → Mesh → Except DofMapError (DofDesc × Nat)
  | d, off, component, mesh =>
    if d.num_sub_dof_maps = 0 then
      .error .NoSubspacesError
    else
      match component with
      | [] => .error .NoSubSystemSpecifiedError
      | c :: rest =>
        if d.num_sub_dof_maps ≤ c then
          .error (.IndexOutOfRangeError c d.num_sub_dof_maps)
        else
          match accumSiblingOffset d off c mesh with
          | .error e => .error e
          | .ok off' =>
            if rest.isEmpty then
              .ok (d.create_sub_dof_map c, off')
            else
              extract_sub_dofmap_rec (d.create_sub_dof_map c) off' rest mesh

/-- Embedding of the member `UFCDofMap::extract_sub_dofmap(component, mesh)`:
reset the offset to 0, run the recursive helper, construct a new map from
the extracted sub-descriptor (running its `init`), and set its offset to the
accumulated value. -/
def UFCDofMap.extract_sub_dofmap (dm : UFCDofMap) (component : List Nat)
    (mesh : Mesh) : Except DofMapError UFCDofMap :=
  match extract_sub_dofmap_rec dm.ufc_dofmap 0 component mesh with
  | .error e => .error e
  | .ok (sub, off) =>
    match mkUFCDofMap sub mesh with
    | .error e => .error e
    | .ok m => .ok { m with ufc_offset := off }

/-- Model of `std::map<uint, uint>::operator[] = v`: replace the value at an
existing key, otherwise add the binding. -/
def mapInsert (m : List (Nat × Nat)) (k v : Nat) : List (Nat × Nat) :=
  match m with
  | [] => [(k, v)]
  | (a, b) :: rest => if a = k then (a, v) :: rest else (a, b) :: mapInsert rest k v

/-- Model of `std::map<uint, uint>::find`: the value bound to a key. -/
def mapLookup (m : List (Nat × Nat)) (k : Nat) : Option Nat :=
  match m with
  | [] => none
  | (a, b) :: rest => if a = k then some b else mapLookup rest k

/-- The per-cell body of the collapse loop (lines 140-152): tabulate this
map's dofs and the collapsed map's dofs for the cell, then for each local
position `i` below the collapsed local dimension record
`collapsed_map[collapsed_dofs[i]] = dofs[i]` (plain overwrite). -/
def collapseStep (dm cm : UFCDofMap) (cell : Nat) (t : List (Nat × Nat)) :
    List (Nat × Nat) :=
  (List.range (cm.local_dimension cell)).foldl
    (fun t i => mapInsert t ((cm.tabulate_dofs cell).getD i 0)
      ((dm.tabulate_dofs cell).getD i 0)) t

/-- Embedding of `UFCDofMap::collapse(collapsed_map, mesh)`: build a new map
from the same descriptor (offset 0, running its `init`), clear the
caller-supplied table, then run the cell pass over all cells in ascending
order, returning the collapsed map and the table. -/
def UFCDofMap.collapse (dm : UFCDofMap) (collapsed_map : List (Nat × Nat))
    (mesh : Mesh) : Except DofMapError (UFCDofMap × List (Nat × Nat)) :=
  match mkUFCDofMap dm.ufc_dofmap mesh with
  | .error e => .error e
  | .ok cm =>
    .ok (cm, (List.range mesh.num_cells).foldl
      (fun t cell => collapseStep dm cm cell t) ([] : List (Nat × Nat)))

/-- Modelled from the spec: `dolfin::Set` (dolfin/common/Set.h, not under the
sources in scope) is a vector-backed set whose `insert` appends the value at
the end when it is not already present and otherwise leaves the set
unchanged. -/
def SetInsert (l : List Nat) (x : Nat) : List Nat :=
  if x ∈ l then l else l ++ [x]

/-- The accumulation loop of `UFCDofMap::dofs`: iterate all cells in
ascending order, tabulate each cell's dofs and insert the first
`local_dimension(cell)` buffer entries into the set. -/
def UFCDofMap.dof_list (dm : UFCDofMap) (mesh : Mesh) : List Nat :=
  (List.range mesh.num_cells).foldl
    (fun s cell =>
      (List.range (dm.local_dimension cell)).foldl
        (fun s i => SetInsert s ((dm.tabulate_dofs cell).getD i 0)) s)
    []

/-- Embedding of `UFCDofMap::dofs(mesh, sort)`: run the accumulation loop,
then sort ascending (`dolfin::Set::sort`, modelled from the spec as an
ascending sort) when requested. -/
def UFCDofMap.dofs (dm : UFCDofMap) (mesh : Mesh) (sort : Bool) : List Nat :=
  if sort then List.insertionSort (· ≤ ·) (dm.dof_list mesh) else dm.dof_list mesh

/-- Model of a `GenericMatrix` block at the interface consumed by
`BlockMatrix::mult`: its row count (`size(0)`) and its matrix-vector
product. -/
structure GenericMatrix : Type where
  size0 : Nat
  matvec : List Int → List Int

/-- The fallback block used to model reads of `matrices[0][0]` on a shape
that the constructor can never produce; never reached on constructor-shaped
matrices. -/
def defaultBlock : GenericMatrix :=
  ⟨0, fun _ => []⟩

/-- The `BlockMatrix` state: the two-dimensional array of block entries. -/
structure BlockMatrix : Type where
  matrices : List (List GenericMatrix)

/-- Embedding of `BlockMatrix::size(dim)`: the number of block rows for
dimension 0, the length of the first block row for dimension 1, and an
error (`error("BlockMatrix has rank 2!")`) for any other dimension. -/
def BlockMatrix.size (bm : BlockMatrix) (dim : Nat) : Except DofMapError Nat :=
  if dim = 0 then .ok bm.matrices.length
  else if dim = 1 then .ok (bm.matrices.headD []).length
  else .error .UnsupportedOperationError

/-- Elementwise vector addition, modelling `GenericVector::operator+=` on
vectors of equal size. -/
def vecAdd (a b : List Int) : List Int :=
  List.zipWith (· + ·) a b

/-- Embedding of `BlockMatrix::mult(x, y, transposed)`: error
(`error("BlockMatrix::mult: transposed not implemented.")`) when the
transposed variant is requested; otherwise, for each block row, resize and
zero the result sub-vector to `matrices[row][0].size(0)` and accumulate the
products of the row's blocks with the matching blocks of `x`. -/
def BlockMatrix.mult (bm : BlockMatrix) (x : List (List Int))
    (transposed : Bool) : Except DofMapError (List (List Int)) :=
  if transposed then
    .error .UnsupportedOperationError
  else
    .ok (bm.matrices.map (fun row =>
      let y0 : List Int := List.replicate (row.headD defaultBlock).size0 0
      ((row.zip x).foldl (fun y p => vecAdd y (p.1.matvec p.2)) y0)))

/-! Shared lemmas and concrete sample instances used by the claim theorems
and their witnesses. -/

/-- Under the descriptor tabulation contract, `tabulate_dofs` is the
descriptor's tabulation with the offset added to every entry. -/
theorem UFCDofMap.tabulate_dofs_eq (dm : UFCDofMap) (cell : Nat)
    (h : (dm.ufc_dofmap.tabulate_dofs cell).length =
      dm.ufc_dofmap.local_dimension cell) :
    dm.tabulate_dofs cell =
      (dm.ufc_dofmap.tabulate_dofs cell).map (· + dm.ufc_offset) := by
  unfold UFCDofMap.tabulate_dofs
  by_cases hoff : 0 < dm.ufc_offset
  · simp only [hoff, if_true, UFCDofMap.local_dimension]
    rw [← h, List.take_length, List.drop_length, List.append_nil]
  · have h0 : dm.ufc_offset = 0 := Nat.eq_zero_of_not_pos hoff
    simp [h0]

/-- A sample ordered mesh: topological dimension 1, two entities in every
dimension, one cell. -/
def meshS : Mesh := ⟨1, fun _ => 2, true, 1⟩

/-- A sample scalar descriptor with no sub-spaces: global dimension 2, two
dofs on the single cell. -/
def leafS : DofDesc :=
  .mk (fun _ => false) 2 2 (fun _ => 2) (fun _ => [0, 1]) false []

/-- A sample scalar descriptor of global dimension 4 (first component of the
sample mixed space). -/
def scalarS : DofDesc :=
  .mk (fun _ => false) 4 1 (fun _ => 1) (fun _ => [0]) false []

/-- A sample mixed descriptor with two sub-spaces of global dimension 4 and
2. -/
def mixedS : DofDesc :=
  .mk (fun _ => false) 6 3 (fun _ => 3) (fun _ => [0, 1, 2]) false [scalarS, leafS]

/-- A sample mixed descriptor with two sub-spaces of global dimension 2
each, used as a nested second component. -/
def nestedB : DofDesc :=
  .mk (fun _ => false) 4 2 (fun _ => 2) (fun _ => [0, 1]) false [leafS, leafS]

/-- A sample nested mixed descriptor: first sub-space of global dimension 4,
second sub-space the mixed descriptor `nestedB`. -/
def nestedRoot : DofDesc :=
  .mk (fun _ => false) 8 4 (fun _ => 4) (fun _ => [0, 1, 2, 3]) false
    [scalarS, nestedB]

/-- C4: for every cell, `tabulate_dofs(cell)` returns exactly the element
descriptor's own per-cell tabulation with the map's offset added to every
entry (entries unchanged when the offset is zero), and the result has length
`local_dimension(cell)` (the hypothesis is the external descriptor's
interface contract that its tabulation has `local_dimension(cell)`
entries). -/
theorem tabulate_dofs_adds_offset (dm : UFCDofMap) (cell : Nat)
    (h : (dm.ufc_dofmap.tabulate_dofs cell).length =
      dm.ufc_dofmap.local_dimension cell) :
    dm.tabulate_dofs cell =
      (dm.ufc_dofmap.tabulate_dofs cell).map (· + dm.ufc_offset) ∧
    (dm.tabulate_dofs cell).length = dm.local_dimension cell ∧
    (dm.ufc_offset = 0 → dm.tabulate_dofs cell = dm.ufc_dofmap.tabulate_dofs cell) := by
  have heq := dm.tabulate_dofs_eq cell h
  refine ⟨heq, ?_, ?_⟩
  · rw [heq, List.length_map, h]; rfl
  · intro h0
    rw [heq, h0]
    simp

/-- Witness for C4 at a concrete map with offset 4 on the sample leaf
descriptor. -/
theorem tabulate_dofs_adds_offset_witness :
    (⟨leafS, 4⟩ : UFCDofMap).tabulate_dofs 0 = [4, 5] ∧
    ((⟨leafS, 4⟩ : UFCDofMap).tabulate_dofs 0).length =
      (⟨leafS, 4⟩ : UFCDofMap).local_dimension 0 := by
  have h := tabulate_dofs_adds_offset ⟨leafS, 4⟩ 0 (by decide)
  exact ⟨by rw [h.1]; rfl, h.2.1⟩

/-- C10: `collapse` first clears the caller-supplied translation table, so
its result does not depend on the table's prior contents: calling it with
any prior table equals calling it with the empty table. -/
theorem collapse_independent_of_supplied_table (dm : UFCDofMap) (mesh : Mesh)
    (t : List (Nat × Nat)) :
    dm.collapse t mesh = dm.collapse [] mesh := rfl

/-- C7: during `init(mesh)`, the per-cell initialization pass (an
`init_cell` call for every cell in ascending order followed by
`init_cell_finalize`) is performed precisely when the descriptor's
`init_mesh` call reports it is required, and is skipped entirely
otherwise. -/
theorem init_cell_pass_iff_init_mesh (dm : UFCDofMap) (mesh : Mesh)
    (tr : InitTrace) (h : dm.init mesh = .ok tr) :
    (dm.ufc_dofmap.init_mesh = true →
      tr.init_cell_calls = List.range mesh.num_cells ∧ tr.finalized = true) ∧
    (dm.ufc_dofmap.init_mesh = false →
      tr.init_cell_calls = [] ∧ tr.finalized = false) := by
  unfold UFCDofMap.init init_ufc_mesh at h
  by_cases hord : mesh.ordered
  · simp only [hord, if_true] at h
    unfold init_ufc_dofmap at h
    constructor
    · intro hb
      cases hfind : (List.range (mesh.topology_dim + 1)).find?
          (fun k => dm.ufc_dofmap.needs_mesh_entities k && mesh.num_entities k == 0) with
      | some k => rw [hfind] at h; cases h
      | none =>
        rw [hfind] at h
        rw [hb] at h
        simp only [if_true] at h
        cases h
        exact ⟨rfl, rfl⟩
    · intro hb
      cases hfind : (List.range (mesh.topology_dim + 1)).find?
          (fun k => dm.ufc_dofmap.needs_mesh_entities k && mesh.num_entities k == 0) with
      | some k => rw [hfind] at h; cases h
      | none =>
        rw [hfind] at h
        rw [hb] at h
        simp only [Bool.false_eq_true, if_false] at h
        cases h
        exact ⟨rfl, rfl⟩
  · simp only [hord, if_false] at h
    cases h

/-- Witness for C7 at a concrete descriptor requiring the per-cell pass on a
two-cell mesh. -/
theorem init_cell_pass_iff_init_mesh_witness :
    (UFCDofMap.init ⟨.mk (fun _ => false) 2 2 (fun _ => 2) (fun _ => [0, 1]) true [],
        0⟩ ⟨1, fun _ => 2, true, 2⟩ = .ok ⟨[0, 1], true⟩) ∧
    ([0, 1] = List.range 2 ∧ true = true) := by
  refine ⟨by rfl, ?_⟩
  exact (init_cell_pass_iff_init_mesh
    ⟨.mk (fun _ => false) 2 2 (fun _ => 2) (fun _ => [0, 1]) true [], 0⟩
    ⟨1, fun _ => 2, true, 2⟩ ⟨[0, 1], true⟩ (by rfl)).1 rfl

/-- C6: on an ordered mesh, whenever some entity dimension `d` at most the
topological dimension is required by the descriptor but has zero
materialized entities, `init(mesh)` fails with a `MissingEntitiesError`
naming a dimension that is required and has zero entities. -/
theorem init_missing_entities_fails (dm : UFCDofMap) (mesh : Mesh)
    (hord : mesh.ordered = true)
    (hmiss : ∃ d, d ≤ mesh.topology_dim ∧
      dm.ufc_dofmap.needs_mesh_entities d = true ∧ mesh.num_entities d = 0) :
    ∃ d, dm.init mesh = .error (.MissingEntitiesError d) ∧
      d ≤ mesh.topology_dim ∧
      dm.ufc_dofmap.needs_mesh_entities d = true ∧ mesh.num_entities d = 0 := by
  have hsome : ((List.range (mesh.topology_dim + 1)).find?
      (fun k => dm.ufc_dofmap.needs_mesh_entities k && mesh.num_entities k == 0)).isSome := by
    rw [List.find?_isSome]
    obtain ⟨d, hd, hneed, hzero⟩ := hmiss
    refine ⟨d, List.mem_range.mpr (by omega), ?_⟩
    simp [hneed, hzero]
  obtain ⟨k, hk⟩ := Option.isSome_iff_exists.mp hsome
  have hpk := List.find?_some hk
  have hmem := List.mem_of_find?_eq_some hk
  have hkneed : dm.ufc_dofmap.needs_mesh_entities k = true :=
    Bool.and_elim_left hpk
  have hkzero : mesh.num_entities k = 0 := by
    simpa using Bool.and_elim_right hpk
  have hkle : k ≤ mesh.topology_dim :=
    Nat.lt_succ_iff.mp (List.mem_range.mp hmem)
  refine ⟨k, ?_, hkle, hkneed, hkzero⟩
  unfold UFCDofMap.init init_ufc_mesh
  simp only [hord, if_true]
  unfold init_ufc_dofmap
  rw [hk]

/-- Witness for C6: the spec scenario of a descriptor needing dimension 1 on
a mesh whose dimension-1 entities were never materialized. -/
theorem init_missing_entities_fails_witness :
    ∃ d, UFCDofMap.init
        ⟨.mk (fun k => k == 1) 2 2 (fun _ => 2) (fun _ => [0, 1]) false [], 0⟩
        ⟨2, fun k => if k = 1 then 0 else 3, true, 3⟩ =
        .error (.MissingEntitiesError d) ∧
      d ≤ 2 ∧
      (DofDesc.mk (fun k => k == 1) 2 2 (fun _ => 2) (fun _ => [0, 1])
        false []).needs_mesh_entities d = true ∧
      (if d = 1 then 0 else 3) = 0 :=
  init_missing_entities_fails
    ⟨.mk (fun k => k == 1) 2 2 (fun _ => 2) (fun _ => [0, 1]) false [], 0⟩
    ⟨2, fun k => if k = 1 then 0 else 3, true, 3⟩ rfl
    ⟨1, by decide, by decide, by decide⟩

/-- C9: on a two-dimensional block matrix structure (nonempty, with every
block row of the same length), `size` returns the number of block rows for
dimension 0 and of block columns for dimension 1 and fails with an
`UnsupportedOperationError` for every other dimension, and `mult` fails with
an `UnsupportedOperationError` whenever the transposed variant is
requested. -/
theorem blockmatrix_size_mult_errors (bm : BlockMatrix) (n : Nat)
    (hne : bm.matrices ≠ [])
    (hcols : ∀ r ∈ bm.matrices, r.length = n) :
    bm.size 0 = .ok bm.matrices.length ∧
    bm.size 1 = .ok n ∧
    (∀ dim, 2 ≤ dim → bm.size dim = .error .UnsupportedOperationError) ∧
    (∀ x, bm.mult x true = .error .UnsupportedOperationError) := by
  refine ⟨rfl, ?_, ?_, fun x => rfl⟩
  · unfold BlockMatrix.size
    cases hm : bm.matrices with
    | nil => exact absurd hm hne
    | cons r t =>
      have hr : r ∈ bm.matrices := by rw [hm]; exact List.mem_cons_self _ _
      rw [if_neg (by decide), if_pos rfl, List.headD_cons, hcols r hr]
  · intro dim hdim
    unfold BlockMatrix.size
    have h0 : dim ≠ 0 := by omega
    have h1 : dim ≠ 1 := by omega
    simp [h0, h1]

/-- Witness for C9 at a concrete 1 x 1 block matrix. -/
theorem blockmatrix_size_mult_errors_witness :
    BlockMatrix.size ⟨[[⟨1, fun v => v⟩]]⟩ 0 = .ok 1 ∧
    BlockMatrix.size ⟨[[⟨1, fun v => v⟩]]⟩ 1 = .ok 1 ∧
    BlockMatrix.size ⟨[[⟨1, fun v => v⟩]]⟩ 2 = .error .UnsupportedOperationError ∧
    BlockMatrix.mult ⟨[[⟨1, fun v => v⟩]]⟩ [[3]] true =
      .error .UnsupportedOperationError := by
  have h := blockmatrix_size_mult_errors ⟨[[⟨1, fun v => v⟩]]⟩ 1
    (by intro hc; cases hc)
    (by intro r hr
        rw [List.mem_singleton] at hr
        rw [hr]
        rfl)
  exact ⟨h.1, h.2.1, h.2.2.1 2 (by omega), h.2.2.2 [[3]]⟩

/-- The sum of the global dimensions of the sub-descriptors with index below
`c`. -/
def siblingDimSum (d : DofDesc) (c : Nat) : Nat :=
  ((List.range c).map (fun j => (d.create_sub_dof_map j).global_dimension)).sum

/-- Unfolding of `siblingDimSum` at a successor. -/
theorem siblingDimSum_succ (d : DofDesc) (c : Nat) :
    siblingDimSum d (c + 1) =
      siblingDimSum d c + (d.create_sub_dof_map c).global_dimension := by
  simp [siblingDimSum, List.range_succ]

/-- Computation rule: binding a success in `Except` applies the
continuation. -/
theorem exceptBind_ok {ε α β : Type} (a : α) (f : α → Except ε β) :
    (Except.ok a >>= f) = f a := rfl

/-- Computation rule: binding an error in `Except` propagates the error. -/
theorem exceptBind_err {ε α β : Type} (e : ε) (f : α → Except ε β) :
    ((Except.error e : Except ε α) >>= f) = .error e := rfl

/-- Unfolding of the sibling-offset accumulation at a successor. -/
theorem accumSiblingOffset_succ (d : DofDesc) (off c : Nat) (mesh : Mesh) :
    accumSiblingOffset d off (c + 1) mesh =
      accumSiblingOffset d off c mesh >>= fun b =>
        match init_ufc_dofmap (d.create_sub_dof_map c) mesh with
        | .error e => .error e
        | .ok _ => .ok (b + (d.create_sub_dof_map c).global_dimension) := by
  unfold accumSiblingOffset
  rw [List.range_succ, List.foldlM_append]
  simp only [List.foldlM_cons, List.foldlM_nil, bind_pure]

/-- Characterization of a successful sibling-offset accumulation: the result
is the starting offset plus the preceding siblings' global-dimension sum,
and every preceding sibling's initialization succeeded. -/
theorem accumSiblingOffset_ok (d : DofDesc) (mesh : Mesh) :
    ∀ c off off', accumSiblingOffset d off c mesh = .ok off' →
      off' = off + siblingDimSum d c ∧
      ∀ j < c, ∃ tr, init_ufc_dofmap (d.create_sub_dof_map j) mesh = .ok tr := by
  intro c
  induction c with
  | zero =>
    intro off off' h
    have hoff : off' = off := by
      have h' : (Except.ok off : Except DofMapError Nat) = .ok off' := h
      injection h' with h'
      exact h'.symm
    refine ⟨by simp [hoff, siblingDimSum], ?_⟩
    intro j hj
    exact absurd hj (Nat.not_lt_zero j)
  | succ c ih =>
    intro off off' h
    rw [accumSiblingOffset_succ] at h
    cases hacc : accumSiblingOffset d off c mesh with
    | error e => rw [hacc, exceptBind_err] at h; cases h
    | ok b =>
      rw [hacc, exceptBind_ok] at h
      cases hinit : init_ufc_dofmap (d.create_sub_dof_map c) mesh with
      | error e => rw [hinit] at h; cases h
      | ok tr =>
        rw [hinit] at h
        injection h with h
        obtain ⟨hb, hinits⟩ := ih off b hacc
        constructor
        · rw [← h, hb, siblingDimSum_succ]
          omega
        · intro j hj
          rcases Nat.lt_succ_iff_lt_or_eq.mp hj with h' | h'
          · exact hinits j h'
          · subst h'
            exact ⟨tr, hinit⟩

/-- Shifting the starting offset of a successful sibling-offset accumulation
shifts its result by the same amount. -/
theorem accumSiblingOffset_shift (d : DofDesc) (mesh : Mesh) :
    ∀ c off₀ off' extra, accumSiblingOffset d off₀ c mesh = .ok off' →
      accumSiblingOffset d (extra + off₀) c mesh = .ok (extra + off') := by
  intro c
  induction c with
  | zero =>
    intro off₀ off' extra h
    have h' : (Except.ok off₀ : Except DofMapError Nat) = .ok off' := h
    injection h' with h'
    show (Except.ok (extra + off₀) : Except DofMapError Nat) = .ok (extra + off')
    rw [h']
  | succ c ih =>
    intro off₀ off' extra h
    rw [accumSiblingOffset_succ] at h
    rw [accumSiblingOffset_succ]
    cases hacc : accumSiblingOffset d off₀ c mesh with
    | error e => rw [hacc, exceptBind_err] at h; cases h
    | ok b =>
      rw [hacc, exceptBind_ok] at h
      rw [ih off₀ b extra hacc, exceptBind_ok]
      cases hinit : init_ufc_dofmap (d.create_sub_dof_map c) mesh with
      | error e => rw [hinit] at h; cases h
      | ok tr =>
        rw [hinit] at h
        injection h with h
        rw [← h]
        exact congrArg Except.ok (Nat.add_assoc extra b _)

/-- One-step unfolding of the recursive extraction helper on a nonempty
component path. -/
theorem extract_rec_cons (d : DofDesc) (off : Nat) (c : Nat) (cs : List Nat)
    (mesh : Mesh) :
    extract_sub_dofmap_rec d off (c :: cs) mesh =
      if d.num_sub_dof_maps = 0 then .error .NoSubspacesError
      else if d.num_sub_dof_maps ≤ c then
        .error (.IndexOutOfRangeError c d.num_sub_dof_maps)
      else
        match accumSiblingOffset d off c mesh with
        | .error e => .error e
        | .ok off' =>
          if cs.isEmpty then .ok (d.create_sub_dof_map c, off')
          else extract_sub_dofmap_rec (d.create_sub_dof_map c) off' cs mesh := by
  rfl

/-- Inversion of a successful construction: the constructed map wraps the
given descriptor with offset 0. -/
theorem mkUFCDofMap_ok_inv (d : DofDesc) (mesh : Mesh) (m : UFCDofMap)
    (h : mkUFCDofMap d mesh = .ok m) : m = ⟨d, 0⟩ := by
  unfold mkUFCDofMap at h
  cases hin : UFCDofMap.init ⟨d, 0⟩ mesh with
  | error e => rw [hin] at h; cases h
  | ok tr =>
    rw [hin] at h
    injection h with h
    exact h.symm

/-- Inversion of a successful member extraction: the recursive helper
produced the result's descriptor and offset, and the construction of the new
map from the extracted descriptor succeeded. -/
theorem extract_member_inv (dm : UFCDofMap) (mesh : Mesh) (comp : List Nat)
    (m : UFCDofMap) (h : dm.extract_sub_dofmap comp mesh = .ok m) :
    extract_sub_dofmap_rec dm.ufc_dofmap 0 comp mesh =
      .ok (m.ufc_dofmap, m.ufc_offset) ∧
    mkUFCDofMap m.ufc_dofmap mesh = .ok ⟨m.ufc_dofmap, 0⟩ := by
  unfold UFCDofMap.extract_sub_dofmap at h
  cases hrec : extract_sub_dofmap_rec dm.ufc_dofmap 0 comp mesh with
  | error e => rw [hrec] at h; cases h
  | ok p =>
    obtain ⟨sub, off⟩ := p
    rw [hrec] at h
    have h' : ((match mkUFCDofMap sub mesh with
      | .error e => .error e
      | .ok mm => .ok { mm with ufc_offset := off }) :
        Except DofMapError UFCDofMap) = .ok m := h
    cases hmk : mkUFCDofMap sub mesh with
    | error e => rw [hmk] at h'; cases h'
    | ok mm =>
      rw [hmk] at h'
      injection h' with h'
      have hmm := mkUFCDofMap_ok_inv sub mesh mm hmk
      subst hmm
      rw [← h']
      exact ⟨rfl, hmk⟩

/-- Evaluation of the member extraction from a successful helper run and a
successful construction of the extracted map. -/
theorem extract_member_eval (dm : UFCDofMap) (mesh : Mesh) (comp : List Nat)
    (sub : DofDesc) (off : Nat)
    (hrec : extract_sub_dofmap_rec dm.ufc_dofmap 0 comp mesh = .ok (sub, off))
    (hmk : mkUFCDofMap sub mesh = .ok ⟨sub, 0⟩) :
    dm.extract_sub_dofmap comp mesh = .ok ⟨sub, off⟩ := by
  unfold UFCDofMap.extract_sub_dofmap
  rw [hrec]
  show ((match mkUFCDofMap sub mesh with
    | .error e => .error e
    | .ok mm => .ok { mm with ufc_offset := off }) :
      Except DofMapError UFCDofMap) = .ok ⟨sub, off⟩
  rw [hmk]

/-- C5: at every level of sub-dofmap extraction (every invocation of the
recursive helper on a nonempty path): a descriptor with zero sub-spaces
fails with `NoSubspacesError`; a requested index not below the number of
available sub-spaces fails with `IndexOutOfRangeError` naming the index and
the available count; otherwise the level raises neither error — once the
preceding-sibling accumulation succeeds the call returns the selected
sub-descriptor (path exhausted) or proceeds to the next level. -/
theorem extract_level_error_conditions (d : DofDesc) (off : Nat) (c : Nat)
    (cs : List Nat) (mesh : Mesh) :
    (d.num_sub_dof_maps = 0 →
      extract_sub_dofmap_rec d off (c :: cs) mesh = .error .NoSubspacesError) ∧
    (0 < d.num_sub_dof_maps → d.num_sub_dof_maps ≤ c →
      extract_sub_dofmap_rec d off (c :: cs) mesh =
        .error (.IndexOutOfRangeError c d.num_sub_dof_maps)) ∧
    (0 < d.num_sub_dof_maps → c < d.num_sub_dof_maps →
      ∀ off', accumSiblingOffset d off c mesh = .ok off' →
        extract_sub_dofmap_rec d off (c :: cs) mesh =
          (if cs.isEmpty then .ok (d.create_sub_dof_map c, off')
           else extract_sub_dofmap_rec (d.create_sub_dof_map c) off' cs mesh)) := by
  refine ⟨?_, ?_, ?_⟩
  · intro h0
    rw [extract_rec_cons, if_pos h0]
  · intro hpos hle
    rw [extract_rec_cons, if_neg (by omega), if_pos hle]
  · intro hpos hlt off' hacc
    rw [extract_rec_cons, if_neg (by omega), if_neg (by omega), hacc]

/-- Witness for C5: a leaf descriptor raises `NoSubspacesError`; the sample
mixed descriptor raises `IndexOutOfRangeError 5 2` for index 5 and extracts
sub-space 1 (offset 4) without either error. -/
theorem extract_level_error_conditions_witness :
    extract_sub_dofmap_rec leafS 0 [0] meshS = .error .NoSubspacesError ∧
    extract_sub_dofmap_rec mixedS 0 [5] meshS =
      .error (.IndexOutOfRangeError 5 2) ∧
    extract_sub_dofmap_rec mixedS 0 [1] meshS = .ok (leafS, 4) :=
  ⟨(extract_level_error_conditions leafS 0 0 [] meshS).1 rfl,
   (extract_level_error_conditions mixedS 0 5 [] meshS).2.1 (by decide) (by decide),
   (extract_level_error_conditions mixedS 0 1 [] meshS).2.2 (by decide) (by decide)
     4 rfl⟩

/-- C3: a successful single-level extraction of sub-space `i` assigns as
offset the sum of the global dimensions of the preceding sibling sub-spaces
`0 .. i-1` (accumulated in ascending order), and each preceding sibling was
instantiated and initialized against the same mesh. -/
theorem extract_offset_additive (dm : UFCDofMap) (mesh : Mesh) (i : Nat)
    (m : UFCDofMap) (h : dm.extract_sub_dofmap [i] mesh = .ok m) :
    m.ufc_offset = siblingDimSum dm.ufc_dofmap i ∧
    ∀ j < i, ∃ tr,
      init_ufc_dofmap (dm.ufc_dofmap.create_sub_dof_map j) mesh = .ok tr := by
  obtain ⟨hrec, _⟩ := extract_member_inv dm mesh [i] m h
  rw [extract_rec_cons] at hrec
  by_cases h0 : dm.ufc_dofmap.num_sub_dof_maps = 0
  · rw [if_pos h0] at hrec; cases hrec
  · rw [if_neg h0] at hrec
    by_cases hle : dm.ufc_dofmap.num_sub_dof_maps ≤ i
    · rw [if_pos hle] at hrec; cases hrec
    · rw [if_neg hle] at hrec
      cases hacc : accumSiblingOffset dm.ufc_dofmap 0 i mesh with
      | error e => rw [hacc] at hrec; cases hrec
      | ok off' =>
        rw [hacc] at hrec
        have hrec' : (Except.ok (dm.ufc_dofmap.create_sub_dof_map i, off') :
            Except DofMapError (DofDesc × Nat)) =
            .ok (m.ufc_dofmap, m.ufc_offset) := hrec
        injection hrec' with hp
        have hoff : off' = m.ufc_offset := congrArg Prod.snd hp
        obtain ⟨hsum, hinits⟩ := accumSiblingOffset_ok dm.ufc_dofmap mesh i 0 off' hacc
        refine ⟨?_, hinits⟩
        rw [← hoff, hsum, Nat.zero_add]

/-- Witness for C3: extracting sub-space 1 of the sample mixed space yields
offset 4, the global dimension of sub-space 0; sub-space 0 was initialized
in the process. -/
theorem extract_offset_additive_witness :
    (UFCDofMap.mk leafS 4).ufc_offset = siblingDimSum mixedS 1 ∧
    ∃ tr, init_ufc_dofmap (mixedS.create_sub_dof_map 0) meshS = .ok tr :=
  ⟨(extract_offset_additive ⟨mixedS, 0⟩ meshS 1 ⟨leafS, 4⟩ rfl).1,
   (extract_offset_additive ⟨mixedS, 0⟩ meshS 1 ⟨leafS, 4⟩ rfl).2 0 (by decide)⟩

/-- One-step unfolding of the recursive extraction helper on an empty
component path. -/
theorem extract_rec_nil (d : DofDesc) (off : Nat) (mesh : Mesh) :
    extract_sub_dofmap_rec d off [] mesh =
      if d.num_sub_dof_maps = 0 then .error .NoSubspacesError
      else .error .NoSubSystemSpecifiedError := rfl

/-- Inversion of a successful single-level helper run: the checks passed,
the sibling accumulation produced the offset, and the result is the selected
sub-descriptor. -/
theorem extract_rec_single_inv (d : DofDesc) (off : Nat) (i : Nat)
    (mesh : Mesh) (p : DofDesc × Nat)
    (h : extract_sub_dofmap_rec d off [i] mesh = .ok p) :
    d.num_sub_dof_maps ≠ 0 ∧ i < d.num_sub_dof_maps ∧
    accumSiblingOffset d off i mesh = .ok p.2 ∧
    p.1 = d.create_sub_dof_map i := by
  rw [extract_rec_cons] at h
  by_cases h0 : d.num_sub_dof_maps = 0
  · rw [if_pos h0] at h; cases h
  · rw [if_neg h0] at h
    by_cases hle : d.num_sub_dof_maps ≤ i
    · rw [if_pos hle] at h; cases h
    · rw [if_neg hle] at h
      cases hacc : accumSiblingOffset d off i mesh with
      | error e => rw [hacc] at h; cases h
      | ok b =>
        rw [hacc] at h
        have h' : (Except.ok (d.create_sub_dof_map i, b) :
            Except DofMapError (DofDesc × Nat)) = .ok p := h
        injection h' with h'
        obtain rfl : p = (d.create_sub_dof_map i, b) := h'.symm
        exact ⟨h0, by omega, rfl, rfl⟩

/-- Shifting the starting offset of a successful helper run shifts the
resulting offset by the same amount (the descriptor is unchanged). -/
theorem extract_rec_shift :
    ∀ (comp : List Nat) (d : DofDesc) (off₀ extra : Nat) (mesh : Mesh)
      (p : DofDesc × Nat),
      extract_sub_dofmap_rec d off₀ comp mesh = .ok p →
      extract_sub_dofmap_rec d (extra + off₀) comp mesh = .ok (p.1, extra + p.2) := by
  intro comp
  induction comp with
  | nil =>
    intro d off₀ extra mesh p h
    rw [extract_rec_nil] at h
    by_cases h0 : d.num_sub_dof_maps = 0
    · rw [if_pos h0] at h; cases h
    · rw [if_neg h0] at h; cases h
  | cons c rest ih =>
    intro d off₀ extra mesh p h
    rw [extract_rec_cons] at h
    rw [extract_rec_cons]
    by_cases h0 : d.num_sub_dof_maps = 0
    · rw [if_pos h0] at h; cases h
    · rw [if_neg h0] at h
      rw [if_neg h0]
      by_cases hle : d.num_sub_dof_maps ≤ c
      · rw [if_pos hle] at h; cases h
      · rw [if_neg hle] at h
        rw [if_neg hle]
        cases hacc : accumSiblingOffset d off₀ c mesh with
        | error e => rw [hacc] at h; cases h
        | ok b =>
          rw [hacc] at h
          rw [accumSiblingOffset_shift d mesh c off₀ b extra hacc]
          cases rest with
          | nil =>
            have h' : (Except.ok (d.create_sub_dof_map c, b) :
                Except DofMapError (DofDesc × Nat)) = .ok p := h
            injection h' with h'
            obtain rfl : p = (d.create_sub_dof_map c, b) := h'.symm
            rfl
          | cons r rs =>
            simp only [List.isEmpty_cons, if_false] at h ⊢
            exact ih (d.create_sub_dof_map c) b extra mesh p h

/-- C1 counterexample: for the concrete nested mixed descriptor below (first
sub-space of global dimension 4, second sub-space itself mixed), extracting
path `[1, 0]` in one call and extracting `[1]` then `[0]` yield maps with
different offsets (4 versus 0) and different tabulated dof lists for cell 0,
because the second extraction resets the offset. -/
theorem extract_not_associative_cex :
    UFCDofMap.extract_sub_dofmap ⟨nestedRoot, 0⟩ [1, 0] meshS =
      .ok ⟨leafS, 4⟩ ∧
    (UFCDofMap.extract_sub_dofmap ⟨nestedRoot, 0⟩ [1] meshS).bind
        (fun m => m.extract_sub_dofmap [0] meshS) = .ok ⟨leafS, 0⟩ ∧
    Except.map UFCDofMap.ufc_offset
        (UFCDofMap.extract_sub_dofmap ⟨nestedRoot, 0⟩ [1, 0] meshS) ≠
      Except.map UFCDofMap.ufc_offset
        ((UFCDofMap.extract_sub_dofmap ⟨nestedRoot, 0⟩ [1] meshS).bind
          (fun m => m.extract_sub_dofmap [0] meshS)) ∧
    Except.map (fun m => m.tabulate_dofs 0)
        (UFCDofMap.extract_sub_dofmap ⟨nestedRoot, 0⟩ [1, 0] meshS) ≠
      Except.map (fun m => m.tabulate_dofs 0)
        ((UFCDofMap.extract_sub_dofmap ⟨nestedRoot, 0⟩ [1] meshS).bind
          (fun m => m.extract_sub_dofmap [0] meshS)) := by
  refine ⟨rfl, rfl, ?_, ?_⟩
  · intro h
    have h' : (Except.ok 4 : Except DofMapError Nat) = .ok 0 := h
    injection h' with h'
    cases h'
  · intro h
    have h' : (Except.ok [4, 5] : Except DofMapError (List Nat)) = .ok [0, 1] := h
    injection h' with h'
    cases h'

/-- C1 amended: extracting `[c]` and then a nonempty path `rest` from the
result yields the same final descriptor as the direct extraction of
`c :: rest`, and the direct offset is the sum of the two steps' offsets; the
two resulting maps (hence their tabulated dof lists) coincide only when the
first step's offset is zero, because the second member call resets the
offset. -/
theorem extract_two_step_decomposition (dm : UFCDofMap) (mesh : Mesh)
    (c : Nat) (rest : List Nat) (m1 m2 : UFCDofMap)
    (hrest : rest ≠ [])
    (h1 : dm.extract_sub_dofmap [c] mesh = .ok m1)
    (h2 : m1.extract_sub_dofmap rest mesh = .ok m2) :
    dm.extract_sub_dofmap (c :: rest) mesh =
      .ok ⟨m2.ufc_dofmap, m1.ufc_offset + m2.ufc_offset⟩ := by
  obtain ⟨hrec1, hmk1⟩ := extract_member_inv dm mesh [c] m1 h1
  obtain ⟨hrec2, hmk2⟩ := extract_member_inv m1 mesh rest m2 h2
  obtain ⟨h0, hlt, hacc, hdesc⟩ :=
    extract_rec_single_inv dm.ufc_dofmap 0 c mesh (m1.ufc_dofmap, m1.ufc_offset) hrec1
  have hshift := extract_rec_shift rest m1.ufc_dofmap 0 m1.ufc_offset mesh
    (m2.ufc_dofmap, m2.ufc_offset) hrec2
  rw [Nat.add_zero] at hshift
  have hdirect : extract_sub_dofmap_rec dm.ufc_dofmap 0 (c :: rest) mesh =
      .ok (m2.ufc_dofmap, m1.ufc_offset + m2.ufc_offset) := by
    rw [extract_rec_cons, if_neg h0, if_neg (by omega), hacc]
    cases rest with
    | nil => exact absurd rfl hrest
    | cons r rs =>
      simp only [List.isEmpty_cons, if_false]
      rw [← hdesc]
      exact hshift
  exact extract_member_eval dm mesh (c :: rest) m2.ufc_dofmap
    (m1.ufc_offset + m2.ufc_offset) hdirect hmk2

/-- Witness for the amended C1 at the concrete nested descriptor: direct
extraction of `[1, 0]` yields the second step's descriptor with offset
`4 + 0`. -/
theorem extract_two_step_decomposition_witness :
    UFCDofMap.extract_sub_dofmap ⟨nestedRoot, 0⟩ [1, 0] meshS =
      .ok ⟨leafS, 4⟩ :=
  extract_two_step_decomposition ⟨nestedRoot, 0⟩ meshS 1 [0]
    ⟨nestedB, 4⟩ ⟨leafS, 0⟩ (by intro h; cases h) rfl rfl

/-- Lookup after an insert: the inserted key maps to the new value, every
other key is unchanged. -/
theorem mapLookup_mapInsert (k v k' : Nat) :
    ∀ m, mapLookup (mapInsert m k v) k' =
      if k = k' then some v else mapLookup m k' := by
  intro m
  induction m with
  | nil => rfl
  | cons p rest ih =>
    obtain ⟨a, b⟩ := p
    by_cases hak : a = k
    · subst hak
      simp only [mapInsert, if_pos rfl]
      by_cases hk' : a = k'
      · simp [mapLookup, hk']
      · simp [mapLookup, hk']
    · simp only [mapInsert, if_neg hak]
      by_cases hk' : a = k'
      · subst hk'
        have hka : ¬ k = a := fun hh => hak hh.symm
        simp [mapLookup, hka]
      · simp [mapLookup, hk', ih]

/-- Membership after an insert: a pair of the result was in the original map
or is the inserted binding. -/
theorem mem_mapInsert (m : List (Nat × Nat)) (k v : Nat) (p : Nat × Nat) :
    p ∈ mapInsert m k v → p ∈ m ∨ p = (k, v) := by
  induction m with
  | nil =>
    intro h
    right
    simpa [mapInsert] using h
  | cons q rest ih =>
    obtain ⟨a, b⟩ := q
    intro h
    simp only [mapInsert] at h
    by_cases hak : a = k
    · rw [if_pos hak] at h
      rcases List.mem_cons.mp h with h' | h'
      · right; rw [h', hak]
      · left; exact List.mem_cons_of_mem _ h'
    · rw [if_neg hak] at h
      rcases List.mem_cons.mp h with h' | h'
      · left; rw [h']; exact List.mem_cons_self _ _
      · rcases ih h' with h'' | h''
        · left; exact List.mem_cons_of_mem _ h''
        · right; exact h''

/-- A successful lookup exhibits a pair of the map. -/
theorem mapLookup_mem (m : List (Nat × Nat)) (k v : Nat)
    (h : mapLookup m k = some v) : (k, v) ∈ m := by
  induction m with
  | nil => cases h
  | cons q rest ih =>
    obtain ⟨a, b⟩ := q
    simp only [mapLookup] at h
    by_cases hak : a = k
    · rw [if_pos hak] at h
      injection h with h
      rw [← hak, ← h]
      exact List.mem_cons_self _ _
    · rw [if_neg hak] at h
      exact List.mem_cons_of_mem _ (ih h)

/-- When every pair of the map satisfies `value = key + off`, a present key
looks up to exactly `key + off`. -/
theorem mapLookup_of_invariant (off : Nat) (m : List (Nat × Nat))
    (hinv : ∀ p ∈ m, p.2 = p.1 + off) (k : Nat)
    (hk : (mapLookup m k).isSome) : mapLookup m k = some (k + off) := by
  obtain ⟨v, hv⟩ := Option.isSome_iff_exists.mp hk
  have hmem := hinv (k, v) (mapLookup_mem m k v hv)
  rw [hv]
  simpa using hmem

/-- Folding inserts whose values all satisfy `value = key + off` preserves
the table invariant `value = key + off`. -/
theorem foldl_mapInsert_inv (off : Nat) (keyf valf : Nat → Nat) :
    ∀ (is : List Nat) (t : List (Nat × Nat)),
      (∀ i ∈ is, valf i = keyf i + off) →
      (∀ p ∈ t, p.2 = p.1 + off) →
      ∀ p ∈ is.foldl (fun t i => mapInsert t (keyf i) (valf i)) t,
        p.2 = p.1 + off := by
  intro is
  induction is with
  | nil => intro t _ hinv p hp; exact hinv p hp
  | cons i rest ih =>
    intro t hvals hinv p hp
    simp only [List.foldl_cons] at hp
    refine ih (mapInsert t (keyf i) (valf i))
      (fun j hj => hvals j (List.mem_cons_of_mem _ hj)) ?_ p hp
    intro q hq
    rcases mem_mapInsert t (keyf i) (valf i) q hq with h' | h'
    · exact hinv q h'
    · rw [h']
      exact hvals i (List.mem_cons_self _ _)

/-- Folding inserts makes a key present when it was present before or is one
of the inserted keys. -/
theorem foldl_mapInsert_isSome (keyf valf : Nat → Nat) :
    ∀ (is : List Nat) (t : List (Nat × Nat)) (k : Nat),
      ((mapLookup t k).isSome ∨ ∃ i ∈ is, keyf i = k) →
      (mapLookup (is.foldl (fun t i => mapInsert t (keyf i) (valf i)) t) k).isSome := by
  intro is
  induction is with
  | nil =>
    intro t k h
    rcases h with h | ⟨i, hi, _⟩
    · exact h
    · exact absurd hi (List.not_mem_nil i)
  | cons i rest ih =>
    intro t k h
    simp only [List.foldl_cons]
    apply ih
    rcases h with h | ⟨j, hj, hk⟩
    · left
      rw [mapLookup_mapInsert]
      by_cases hki : keyf i = k
      · rw [if_pos hki]; rfl
      · rw [if_neg hki]; exact h
    · rcases List.mem_cons.mp hj with h' | h'
      · left
        rw [mapLookup_mapInsert, if_pos (h' ▸ hk)]
        rfl
      · right; exact ⟨j, h', hk⟩

/-- The collapse cell pass inserts pairs whose original dof equals the
collapsed dof plus the original map's offset, for the positions below the
collapsed local dimension. -/
theorem collapse_pair (dm cm : UFCDofMap) (cell : Nat)
    (hdesc : cm.ufc_dofmap = dm.ufc_dofmap) (h0 : cm.ufc_offset = 0)
    (hlen : (dm.ufc_dofmap.tabulate_dofs cell).length =
      dm.ufc_dofmap.local_dimension cell)
    (i : Nat) (hi : i < cm.local_dimension cell) :
    (dm.tabulate_dofs cell).getD i 0 =
      (cm.tabulate_dofs cell).getD i 0 + dm.ufc_offset := by
  have hcm : cm.tabulate_dofs cell = dm.ufc_dofmap.tabulate_dofs cell := by
    have h := cm.tabulate_dofs_eq cell (by rw [hdesc]; exact hlen)
    rw [h, h0, hdesc]
    simp
  have hdm := dm.tabulate_dofs_eq cell hlen
  have hi' : i < (dm.ufc_dofmap.tabulate_dofs cell).length := by
    rw [hlen]
    have : cm.local_dimension cell = dm.ufc_dofmap.local_dimension cell := by
      rw [UFCDofMap.local_dimension, hdesc]
    rw [this] at hi
    exact hi
  rw [hcm, hdm]
  rw [List.getD_eq_getElem?_getD, List.getD_eq_getElem?_getD, List.getElem?_map,
    List.getElem?_eq_getElem hi']
  rfl

/-- Folding the collapse cell pass over any cell list preserves the table
invariant `value = key + offset`. -/
theorem collapse_fold_inv (dm cm : UFCDofMap) :
    ∀ (cells : List Nat) (t : List (Nat × Nat)),
      (∀ cell ∈ cells, ∀ i, i < cm.local_dimension cell →
        (dm.tabulate_dofs cell).getD i 0 =
          (cm.tabulate_dofs cell).getD i 0 + dm.ufc_offset) →
      (∀ p ∈ t, p.2 = p.1 + dm.ufc_offset) →
      ∀ p ∈ cells.foldl (fun t cell => collapseStep dm cm cell t) t,
        p.2 = p.1 + dm.ufc_offset := by
  intro cells
  induction cells with
  | nil => intro t _ hinv p hp; exact hinv p hp
  | cons c rest ih =>
    intro t hcells hinv p hp
    simp only [List.foldl_cons] at hp
    refine ih (collapseStep dm cm c t)
      (fun c' h' => hcells c' (List.mem_cons_of_mem _ h')) ?_ p hp
    exact foldl_mapInsert_inv dm.ufc_offset
      (fun i => (cm.tabulate_dofs c).getD i 0)
      (fun i => (dm.tabulate_dofs c).getD i 0)
      (List.range (cm.local_dimension c)) t
      (fun i hi => hcells c (List.mem_cons_self _ _) i (List.mem_range.mp hi))
      hinv

/-- Folding the collapse cell pass preserves presence of a key. -/
theorem collapse_fold_preserves_isSome (dm cm : UFCDofMap) :
    ∀ (cells : List Nat) (t : List (Nat × Nat)) (k : Nat),
      (mapLookup t k).isSome →
      (mapLookup (cells.foldl (fun t cell => collapseStep dm cm cell t) t) k).isSome := by
  intro cells
  induction cells with
  | nil => intro t k h; exact h
  | cons c rest ih =>
    intro t k h
    simp only [List.foldl_cons]
    apply ih
    exact foldl_mapInsert_isSome
      (fun i => (cm.tabulate_dofs c).getD i 0)
      (fun i => (dm.tabulate_dofs c).getD i 0)
      (List.range (cm.local_dimension c)) t k (Or.inl h)

/-- After folding the collapse cell pass over a cell list, every collapsed
dof of every visited cell is a key of the table. -/
theorem collapse_fold_key (dm cm : UFCDofMap) :
    ∀ (cells : List Nat) (t : List (Nat × Nat)) (c k : Nat),
      c ∈ cells → k < cm.local_dimension c →
      (mapLookup (cells.foldl (fun t cell => collapseStep dm cm cell t) t)
        ((cm.tabulate_dofs c).getD k 0)).isSome := by
  intro cells
  induction cells with
  | nil => intro t c k hc _; exact absurd hc (List.not_mem_nil c)
  | cons c0 rest ih =>
    intro t c k hc hk
    simp only [List.foldl_cons]
    rcases List.mem_cons.mp hc with h' | h'
    · subst h'
      apply collapse_fold_preserves_isSome dm cm rest
      exact foldl_mapInsert_isSome
        (fun i => (cm.tabulate_dofs c).getD i 0)
        (fun i => (dm.tabulate_dofs c).getD i 0)
        (List.range (cm.local_dimension c)) t _
        (Or.inr ⟨k, List.mem_range.mpr hk, rfl⟩)
    · exact ih (collapseStep dm cm c0 t) c k h' hk

/-- C2: when `collapse(mesh)` succeeds (under the descriptor tabulation
contract), the collapsed map is built from the same descriptor with zero
offset, and for every cell and every local position `k` the translation
table maps the collapsed map's dof at `k` back to the original map's dof at
`k` (the table entries are written by plain overwrite, last write wins in
ascending cell order; they never conflict here because both maps share the
descriptor). -/
theorem collapse_roundtrip (dm : UFCDofMap) (mesh : Mesh)
    (t0 : List (Nat × Nat)) (cm : UFCDofMap) (table : List (Nat × Nat))
    (hwf : dm.ufc_dofmap.TabulatesWF mesh)
    (h : dm.collapse t0 mesh = .ok (cm, table)) :
    cm.ufc_dofmap = dm.ufc_dofmap ∧ cm.ufc_offset = 0 ∧
    ∀ cell, cell < mesh.num_cells → ∀ k, k < dm.local_dimension cell →
      mapLookup table ((cm.tabulate_dofs cell).getD k 0) =
        some ((dm.tabulate_dofs cell).getD k 0) := by
  unfold UFCDofMap.collapse at h
  cases hmk : mkUFCDofMap dm.ufc_dofmap mesh with
  | error e => rw [hmk] at h; cases h
  | ok cmm =>
    rw [hmk] at h
    injection h with h
    rw [Prod.mk.injEq] at h
    obtain ⟨hcm, htab⟩ := h
    have hcmm : cmm = ⟨dm.ufc_dofmap, 0⟩ := mkUFCDofMap_ok_inv _ _ _ hmk
    subst hcm
    subst htab
    subst hcmm
    refine ⟨rfl, rfl, ?_⟩
    intro cell hcell k hk
    have hpair : ∀ c ∈ List.range mesh.num_cells,
        ∀ i, i < (⟨dm.ufc_dofmap, 0⟩ : UFCDofMap).local_dimension c →
        (dm.tabulate_dofs c).getD i 0 =
          ((⟨dm.ufc_dofmap, 0⟩ : UFCDofMap).tabulate_dofs c).getD i 0 +
            dm.ufc_offset := by
      intro c hc i hi
      exact collapse_pair dm ⟨dm.ufc_dofmap, 0⟩ c rfl rfl
        (hwf c (List.mem_range.mp hc)).1 i hi
    have hinv := collapse_fold_inv dm ⟨dm.ufc_dofmap, 0⟩
      (List.range mesh.num_cells) [] hpair (by intro p hp; cases hp)
    have hkey := collapse_fold_key dm ⟨dm.ufc_dofmap, 0⟩
      (List.range mesh.num_cells) [] cell k (List.mem_range.mpr hcell) hk
    have hlook := mapLookup_of_invariant dm.ufc_offset _ hinv
      (((⟨dm.ufc_dofmap, 0⟩ : UFCDofMap).tabulate_dofs cell).getD k 0) hkey
    rw [hlook]
    rw [collapse_pair dm ⟨dm.ufc_dofmap, 0⟩ cell rfl rfl
      (hwf cell hcell).1 k hk]

/-- Witness for C2: collapsing the map of offset 4 over the sample leaf
descriptor produces the translation table mapping collapsed dof 1 to
original dof 5. -/
theorem collapse_roundtrip_witness :
    mapLookup [(0, 4), (1, 5)] 1 = some 5 :=
  (collapse_roundtrip ⟨leafS, 4⟩ meshS [] ⟨leafS, 0⟩ [(0, 4), (1, 5)]
    (by intro c hc; exact ⟨rfl, Nat.le_refl 2⟩) rfl).2.2 0 (by decide) 1 (by decide)

/-- Membership after a set insert. -/
theorem mem_SetInsert (l : List Nat) (x y : Nat) :
    y ∈ SetInsert l x ↔ y ∈ l ∨ y = x := by
  unfold SetInsert
  by_cases hx : x ∈ l
  · rw [if_pos hx]
    constructor
    · exact Or.inl
    · rintro (h | rfl)
      · exact h
      · exact hx
  · rw [if_neg hx]
    simp [List.mem_append]

/-- Set insert preserves the no-duplicates invariant of `dolfin::Set`. -/
theorem SetInsert_nodup (l : List Nat) (x : Nat) (h : l.Nodup) :
    (SetInsert l x).Nodup := by
  unfold SetInsert
  by_cases hx : x ∈ l
  · rw [if_pos hx]; exact h
  · rw [if_neg hx, List.nodup_append]
    refine ⟨h, List.nodup_singleton x, ?_⟩
    intro a ha hax
    rw [List.mem_singleton] at hax
    subst hax
    exact hx ha

/-- Folding set inserts preserves the no-duplicates invariant. -/
theorem foldl_SetInsert_nodup (valf : Nat → Nat) :
    ∀ (is : List Nat) (s : List Nat), s.Nodup →
      (is.foldl (fun s i => SetInsert s (valf i)) s).Nodup := by
  intro is
  induction is with
  | nil => intro s h; exact h
  | cons i rest ih =>
    intro s h
    simp only [List.foldl_cons]
    exact ih (SetInsert s (valf i)) (SetInsert_nodup s (valf i) h)

/-- Membership after folding set inserts. -/
theorem mem_foldl_SetInsert (valf : Nat → Nat) :
    ∀ (is : List Nat) (s : List Nat) (y : Nat),
      y ∈ is.foldl (fun s i => SetInsert s (valf i)) s ↔
        y ∈ s ∨ ∃ i ∈ is, valf i = y := by
  intro is
  induction is with
  | nil => intro s y; simp
  | cons i rest ih =>
    intro s y
    simp only [List.foldl_cons, ih, mem_SetInsert, List.mem_cons]
    constructor
    · rintro ((h | rfl) | ⟨j, hj, rfl⟩)
      · exact Or.inl h
      · exact Or.inr ⟨i, Or.inl rfl, rfl⟩
      · exact Or.inr ⟨j, Or.inr hj, rfl⟩
    · rintro (h | ⟨j, (rfl | hj), rfl⟩)
      · exact Or.inl (Or.inl h)
      · exact Or.inl (Or.inr rfl)
      · exact Or.inr ⟨j, hj, rfl⟩

/-- The accumulation loop of `dofs` preserves the no-duplicates
invariant. -/
theorem foldl_cells_SetInsert_nodup (dm : UFCDofMap) :
    ∀ (cells : List Nat) (s : List Nat), s.Nodup →
      (cells.foldl (fun s cell =>
        (List.range (dm.local_dimension cell)).foldl
          (fun s i => SetInsert s ((dm.tabulate_dofs cell).getD i 0)) s) s).Nodup := by
  intro cells
  induction cells with
  | nil => intro s h; exact h
  | cons c rest ih =>
    intro s h
    simp only [List.foldl_cons]
    exact ih _ (foldl_SetInsert_nodup _ (List.range (dm.local_dimension c)) s h)

/-- Membership after the accumulation loop of `dofs`: the collected indices
are those read from some visited cell's tabulation buffer. -/
theorem mem_foldl_cells_SetInsert (dm : UFCDofMap) :
    ∀ (cells : List Nat) (s : List Nat) (y : Nat),
      y ∈ cells.foldl (fun s cell =>
        (List.range (dm.local_dimension cell)).foldl
          (fun s i => SetInsert s ((dm.tabulate_dofs cell).getD i 0)) s) s ↔
        y ∈ s ∨ ∃ c ∈ cells, ∃ i, i < dm.local_dimension c ∧
          (dm.tabulate_dofs c).getD i 0 = y := by
  intro cells
  induction cells with
  | nil => intro s y; simp
  | cons c rest ih =>
    intro s y
    simp only [List.foldl_cons, ih, mem_foldl_SetInsert, List.mem_range,
      List.mem_cons]
    constructor
    · rintro ((h | ⟨i, hi, rfl⟩) | ⟨c', hc', i, hi, rfl⟩)
      · exact Or.inl h
      · exact Or.inr ⟨c, Or.inl rfl, i, hi, rfl⟩
      · exact Or.inr ⟨c', Or.inr hc', i, hi, rfl⟩
    · rintro (h | ⟨c', (rfl | hc'), i, hi, rfl⟩)
      · exact Or.inl (Or.inl h)
      · exact Or.inl (Or.inr ⟨i, hi, rfl⟩)
      · exact Or.inr ⟨c', hc', i, hi, rfl⟩

/-- Reading every position of a list through `getD` with the in-range bound
enumerates exactly the list's elements. -/
theorem getD_mem_iff (l : List Nat) (y : Nat) :
    (∃ i, i < l.length ∧ l.getD i 0 = y) ↔ y ∈ l := by
  constructor
  · rintro ⟨i, hi, rfl⟩
    have hgd : l.getD i 0 = l[i] := by
      rw [List.getD_eq_getElem?_getD, List.getElem?_eq_getElem hi]
      rfl
    rw [hgd]
    exact List.getElem_mem hi
  · intro hy
    obtain ⟨i, hi, hEq⟩ := List.getElem_of_mem hy
    refine ⟨i, hi, ?_⟩
    rw [List.getD_eq_getElem?_getD, List.getElem?_eq_getElem hi]
    exact hEq

/-- C8: under the descriptor tabulation contract, `dofs(mesh, sort=true)` is
strictly ascending with no duplicates, `dofs(mesh, sort=false)` has no
duplicates and holds the same indices, and the collected indices are exactly
the global indices tabulated for some cell of the mesh. -/
theorem dofs_sorted_nodup_same_set (dm : UFCDofMap) (mesh : Mesh)
    (hwf : dm.ufc_dofmap.TabulatesWF mesh) :
    (dm.dofs mesh true).Sorted (· < ·) ∧
    (dm.dofs mesh false).Nodup ∧
    (∀ y, y ∈ dm.dofs mesh true ↔ y ∈ dm.dofs mesh false) ∧
    (∀ y, y ∈ dm.dofs mesh false ↔
      ∃ c, c < mesh.num_cells ∧ y ∈ dm.tabulate_dofs c) := by
  have hdl_nodup : (dm.dof_list mesh).Nodup :=
    foldl_cells_SetInsert_nodup dm (List.range mesh.num_cells) [] List.nodup_nil
  have hperm : List.Perm (List.insertionSort (· ≤ ·) (dm.dof_list mesh))
      (dm.dof_list mesh) :=
    List.perm_insertionSort (· ≤ ·) (dm.dof_list mesh)
  have hfalse : dm.dofs mesh false = dm.dof_list mesh := rfl
  have htrue : dm.dofs mesh true =
      List.insertionSort (· ≤ ·) (dm.dof_list mesh) := rfl
  have hlen : ∀ c, c < mesh.num_cells →
      (dm.tabulate_dofs c).length = dm.local_dimension c := by
    intro c hc
    rw [dm.tabulate_dofs_eq c (hwf c hc).1, List.length_map, (hwf c hc).1]
    rfl
  refine ⟨?_, ?_, ?_, ?_⟩
  · rw [htrue]
    exact List.Sorted.lt_of_le
      (List.sorted_insertionSort (· ≤ ·) (dm.dof_list mesh))
      (hperm.nodup_iff.mpr hdl_nodup)
  · rw [hfalse]
    exact hdl_nodup
  · intro y
    rw [htrue, hfalse]
    exact hperm.mem_iff
  · intro y
    rw [hfalse]
    unfold UFCDofMap.dof_list
    rw [mem_foldl_cells_SetInsert]
    constructor
    · rintro (h | ⟨c, hc, i, hi, rfl⟩)
      · cases h
      · have hc' := List.mem_range.mp hc
        refine ⟨c, hc', ?_⟩
        rw [← getD_mem_iff]
        exact ⟨i, by rw [hlen c hc']; exact hi, rfl⟩
    · rintro ⟨c, hc, hy⟩
      right
      obtain ⟨i, hi, hEq⟩ := (getD_mem_iff _ y).mpr hy
      exact ⟨c, List.mem_range.mpr hc, i, by rw [← hlen c hc]; exact hi, hEq⟩

/-- Witness for C8 at the offset-4 map over the sample leaf descriptor. -/
theorem dofs_sorted_nodup_same_set_witness :
    ((⟨leafS, 4⟩ : UFCDofMap).dofs meshS true).Sorted (· < ·) ∧
    ((⟨leafS, 4⟩ : UFCDofMap).dofs meshS false).Nodup ∧
    (5 ∈ (⟨leafS, 4⟩ : UFCDofMap).dofs meshS true ↔
      5 ∈ (⟨leafS, 4⟩ : UFCDofMap).dofs meshS false) := by
  have h := dofs_sorted_nodup_same_set ⟨leafS, 4⟩ meshS
    (fun c hc => ⟨rfl, Nat.le_refl 2⟩)
  exact ⟨h.1, h.2.1, h.2.2.1 5⟩

end Dolfin
